import Mathlib

/-!
Verification development for the tracing core in src/jax/core.py.

The Python module is shallowly embedded: pure functions become Lean
functions, subclass-provided methods (pure, lift, sublift,
process_primitive, post_process_call, a tracer's full_lower) become
explicit function parameters, Python object identity becomes an explicit
identity tag, and raised exceptions become the error branch of Except.
-/

namespace JaxCore

/-- Embeds class MasterTrace (core.py lines 364-376).  The field mid models
Python object identity, used by the source's `is` comparisons; level and
traceTy are the constructor arguments level and trace_type. -/
structure MasterTrace where
  mid : Nat
  level : Int
  traceTy : Nat
deriving DecidableEq, Repr

/-- Embeds a Trace instance (core.py lines 216-220): a master together with
a sublevel; the trace's level is master.level. -/
structure TraceRef where
  master : MasterTrace
  sublevel : Nat
deriving DecidableEq, Repr

/-- A runtime value: either a concrete (non-Tracer) value, or a Tracer
carrying its owning trace (core.py lines 262-271).  The payload stands for
the tracer's transformation-specific content. -/
inductive Value where
  | concrete (n : Nat)
  | tracer (tr : TraceRef) (payload : Nat)
deriving DecidableEq, Repr

/-- Tests isinstance(x, Tracer). -/
def Value.isTracer : Value → Bool
  | .tracer _ _ => true
  | .concrete _ => false

/-- Embeds Trace.full_raise (core.py lines 222-245).  The subclass methods
self.pure, self.lift, self.sublift are the parameters pureF, liftF,
subliftF; raised exceptions are Except.error.  Branches are translated in
source order; master comparison is by identity (mid), as the source uses
`is`. -/
def full_raise (T : TraceRef) (pureF liftF subliftF : Value → Value)
    (val : Value) : Except String Value :=
  match val with
  | .concrete _ => Except.ok (pureF val)
  | .tracer tr _ =>
    if tr.master.mid = T.master.mid then
      if tr.sublevel = T.sublevel then Except.ok val
      else if tr.sublevel < T.sublevel then Except.ok (subliftF val)
      else Except.error "cannot lift sublevels"
    else if tr.master.level < T.master.level then
      if tr.sublevel > T.sublevel then Except.error "incompatible sublevel"
      else Except.ok (liftF val)
    else if tr.master.level > T.master.level then
      Except.error "cannot lift value to target"
    else if tr.master.level = T.master.level then
      Except.error "different traces at same level"
    else
      Except.error "cannot lift value to target"

/-- Tests whether an Except is the error branch (a raised exception). -/
def isErr {α : Type} : Except String α → Bool
  | .error _ => true
  | .ok _ => false

/-- Embeds full_lower (core.py lines 195-200).  The subclass method
val.full_lower() is the parameter tfl, applied only when the value is a
Tracer. -/
def full_lower (tfl : Value → Value) (val : Value) : Value :=
  match val with
  | .tracer _ _ => tfl val
  | .concrete _ => val

/-- Extracts the traces of the Tracer elements, in order (the generator
`x.trace for x in xs if isinstance(x, Tracer)` in find_top_trace). -/
def tracer_traces (xs : List Value) : List TraceRef :=
  xs.filterMap fun x => match x with
    | .tracer tr _ => some tr
    | .concrete _ => none

/-- Embeds Python max(..., key=attrgetter('level')): the first element of
maximal level, None (none) on an empty list. -/
def max_by_level : List TraceRef → Option TraceRef
  | [] => none
  | t :: ts => some (ts.foldl (fun acc x =>
      if x.master.level > acc.master.level then x else acc) t)

/-- Embeds find_top_trace (core.py lines 203-210): the maximal-level trace
among the Tracer arguments, rebuilt as a fresh trace of the same master at
the current sublevel; none when no argument is a Tracer. -/
def find_top_trace (curSub : Nat) (xs : List Value) : Option TraceRef :=
  (max_by_level (tracer_traces xs)).map (fun tr => ⟨tr.master, curSub⟩)

/-- Embeds class Primitive's per-instance data (core.py lines 117-124):
its name and the multiple_results flag. -/
structure Primitive where
  name : String
  multiple_results : Bool
deriving DecidableEq, Repr

/-- Result of an impl or process_primitive call: one value for
single-result primitives, an ordered list for multiple_results ones. -/
inductive BindRes where
  | single (v : Value)
  | multi (vs : List Value)
deriving DecidableEq, Repr

/-- Embeds the module-level global skip_checks (core.py line 36), which the
source sets to True. -/
def skip_checks : Bool := true

/-- Embeds valid_jaxtype (core.py lines 499-505): true when type(x) has an
entry in pytype_aval_mappings.  The registry is the parameter reg over
concrete payloads; Tracer types have no entry in this module's registry. -/
def valid_jaxtype (reg : Nat → Bool) : Value → Bool
  | .concrete n => reg n
  | .tracer _ _ => false

/-- The subclass method suite of a Trace: pure, lift and sublift, indexed
by the trace instance they are invoked on. -/
structure TraceOps where
  pureF : TraceRef → Value → Value
  liftF : TraceRef → Value → Value
  subliftF : TraceRef → Value → Value

/-- Embeds Primitive.bind (core.py lines 126-139) including the
skip_checks-guarded assert on line 128.  impl is the primitive's concrete
rule, procPrim the top trace's process_primitive, tfl the tracer-level
full_lower method, params the kwargs.  The source branches on
multiple_results when lowering; the shape of the process_primitive result
is matched accordingly (a mismatched shape, undefined behaviour in the
source, is modelled as an error). -/
def Primitive.bind (p : Primitive) (sc : Bool) (reg : Nat → Bool)
    (curSub : Nat) (impl : List Value → Nat → BindRes) (ops : TraceOps)
    (procPrim : TraceRef → List Value → Nat → BindRes)
    (tfl : Value → Value) (params : Nat)
    (args : List Value) : Except String BindRes :=
  if sc || args.all (fun a => a.isTracer || valid_jaxtype reg a) then
    match find_top_trace curSub args with
    | none => Except.ok (impl args params)
    | some top =>
      match args.mapM
          (full_raise top (ops.pureF top) (ops.liftF top) (ops.subliftF top)) with
      | .error e => Except.error e
      | .ok tracers =>
        let out := procPrim top tracers params
        if p.multiple_results then
          match out with
          | .multi vs => Except.ok (BindRes.multi (vs.map (full_lower tfl)))
          | .single _ => Except.error "expected multiple results"
        else
          match out with
          | .single v => Except.ok (BindRes.single (full_lower tfl v))
          | .multi _ => Except.error "expected a single result"
  else
    Except.error "invalid argument types"

/-- Embeds identity_p (core.py lines 536-538): a Primitive named id. -/
def identity_p : Primitive := ⟨"id", false⟩

/-- Embeds identity_p.def_impl(lambda x: x) (core.py line 537). -/
def identity_impl : Value → Value := fun x => x

/-- Embeds identity_p.def_custom_bind(lambda x: x) (core.py line 538):
def_custom_bind stores the lambda as the instance's bind attribute, so
invoking identity_p.bind applies this function instead of
Primitive.bind. -/
def identity_bind : Value → Value := fun x => x

/-- A graph variable: either the distinguished unitvar object (core.py
line 532) or an ordinary variable identified by a number.  Variables are
compared by object identity in the source; distinct tags model distinct
objects. -/
inductive Var where
  | unitvar
  | named (n : Nat)
deriving DecidableEq, Repr

/-- An atom readable by an equation or output list: a variable reference
or an embedded Literal (whose payload has type V). -/
inductive Atom (V : Type) where
  | var (v : Var)
  | lit (x : V)
deriving DecidableEq, Repr

mutual

/-- Embeds class Jaxpr (core.py lines 44-50): constvars, freevars, invars,
outvars and the equation list. -/
inductive Jaxpr (V : Type) where
  | mk (constvars freevars invars : List Var) (outvars : List (Atom V))
       (eqns : List (JEqn V))

/-- Embeds JaxprEqn (core.py lines 86-87): input atoms, output variables,
the primitive (by name index), bound sub-programs and static params.  The
eqn_id identity object plays no role in checking or evaluation and is
omitted. -/
inductive JEqn (V : Type) where
  | mk (invars : List (Atom V)) (outvars : List Var) (prim : Nat)
       (subs : List (SubJaxpr V)) (params : Nat)

/-- One element of bound_subjaxprs: a sub-program with the atoms bound to
its constvars and freevars. -/
inductive SubJaxpr (V : Type) where
  | mk (jaxpr : Jaxpr V) (constBindings freevarBindings : List (Atom V))

end

/-- Field accessors for the mutual inductives. -/
def Jaxpr.constvars {V : Type} : Jaxpr V → List Var
  | .mk cvs _ _ _ _ => cvs

def Jaxpr.freevars {V : Type} : Jaxpr V → List Var
  | .mk _ fvs _ _ _ => fvs

def Jaxpr.invars {V : Type} : Jaxpr V → List Var
  | .mk _ _ ivs _ _ => ivs

def Jaxpr.outvars {V : Type} : Jaxpr V → List (Atom V)
  | .mk _ _ _ outs _ => outs

def Jaxpr.eqns {V : Type} : Jaxpr V → List (JEqn V)
  | .mk _ _ _ _ es => es

/-- Embeds read_env in check_jaxpr (core.py lines 595-597): a Literal
always reads fine; a variable must already be in the environment. -/
def readAtomCk {V : Type} (env : List Var) : Atom V → Except String Unit
  | .lit _ => Except.ok ()
  | .var v => if v ∈ env then Except.ok () else
      Except.error "variable not defined"

/-- Reads a list of atoms in order, stopping at the first failure. -/
def readAtomsCk {V : Type} (env : List Var) : List (Atom V) → Except String Unit
  | [] => Except.ok ()
  | a :: rest => match readAtomCk env a with
    | .error e => Except.error e
    | .ok _ => readAtomsCk env rest

/-- Embeds write_env in check_jaxpr (core.py lines 599-602): writing an
already-bound variable is an error; otherwise the variable is added. -/
def writeVarCk (env : List Var) (v : Var) : Except String (List Var) :=
  if v ∈ env then Except.error "variable already bound"
  else Except.ok (v :: env)

/-- Writes a list of variables in order, stopping at the first failure. -/
def writeVarsCk (env : List Var) : List Var → Except String (List Var)
  | [] => Except.ok env
  | v :: vs => match writeVarCk env v with
    | .error e => Except.error e
    | .ok env1 => writeVarsCk env1 vs

mutual

/-- Embeds check_jaxpr (core.py lines 591-619): write unitvar, constvars,
freevars and invars into a fresh scope, walk the equations, then read the
output list.  Purely a validator: it evaluates nothing and returns only
ok or the first error. -/
def check_jaxpr {V : Type} : Jaxpr V → Except String Unit
  | .mk cvs fvs ivs outs eqns =>
    match writeVarsCk [] (Var.unitvar :: (cvs ++ fvs ++ ivs)) with
    | .error e => Except.error e
    | .ok env =>
      match checkEqns env eqns with
      | .error e => Except.error e
      | .ok env1 => readAtomsCk env1 outs

/-- The equation loop of check_jaxpr (core.py lines 612-618): read the
equation's inputs, check each bound sub-program's closure atoms and
recursively the sub-program, then write the outputs. -/
def checkEqns {V : Type} (env : List Var) : List (JEqn V) → Except String (List Var)
  | [] => Except.ok env
  | .mk invars outvars _ subs _ :: rest =>
    match readAtomsCk env invars with
    | .error e => Except.error e
    | .ok _ =>
      match checkSubs env subs with
      | .error e => Except.error e
      | .ok _ =>
        match writeVarsCk env outvars with
        | .error e => Except.error e
        | .ok env1 => checkEqns env1 rest

/-- The bound_subjaxprs loop of check_jaxpr (core.py lines 614-617): read
the freevar bindings, then the constvar bindings, then recursively check
the sub-program in a fresh scope. -/
def checkSubs {V : Type} (env : List Var) : List (SubJaxpr V) → Except String Unit
  | [] => Except.ok ()
  | .mk sub cbs fbs :: rest =>
    match readAtomsCk env fbs with
    | .error e => Except.error e
    | .ok _ =>
      match readAtomsCk env cbs with
      | .error e => Except.error e
      | .ok _ =>
        match check_jaxpr sub with
        | .error e => Except.error e
        | .ok _ => checkSubs env rest

end

/-- Spec-side reading condition (claim C4's words): a read atom is fine
when it is a literal or a previously written variable. -/
def ReadOK {V : Type} (env : List Var) : Atom V → Prop
  | .lit _ => True
  | .var v => v ∈ env

/-- Environment accumulated by the equation loop when no error occurs:
each equation appends its output variables. -/
def accumEnvEqns {V : Type} (env : List Var) : List (JEqn V) → List Var
  | [] => env
  | .mk _ outvars _ _ _ :: rest => accumEnvEqns (outvars.reverse ++ env) rest

mutual

/-- Spec-side well-scopedness (claim C4's words): the unit variable and
the declared constvars, freevars and invars are pairwise distinct; every
read in the equations is preceded by a write and no variable is written
twice; every output-list read refers to a written variable; bound
sub-programs are recursively well-scoped. -/
def wsJaxpr {V : Type} : Jaxpr V → Prop
  | .mk cvs fvs ivs outs eqns =>
    (Var.unitvar :: (cvs ++ fvs ++ ivs)).Nodup ∧
    wsEqns (Var.unitvar :: (cvs ++ fvs ++ ivs)).reverse eqns ∧
    ∀ a ∈ outs,
      ReadOK (accumEnvEqns (Var.unitvar :: (cvs ++ fvs ++ ivs)).reverse eqns) a

/-- Spec-side well-scopedness of an equation list under the set of
already-written variables. -/
def wsEqns {V : Type} (env : List Var) : List (JEqn V) → Prop
  | [] => True
  | .mk invars outvars _ subs _ :: rest =>
    (∀ a ∈ invars, ReadOK env a) ∧ wsSubs env subs ∧
    (outvars.Nodup ∧ ∀ v ∈ outvars, v ∉ env) ∧
    wsEqns (outvars.reverse ++ env) rest

/-- Spec-side well-scopedness of bound sub-programs: closure bindings
resolvable in the enclosing scope and the sub-program itself
well-scoped. -/
def wsSubs {V : Type} (env : List Var) : List (SubJaxpr V) → Prop
  | [] => True
  | .mk sub cbs fbs :: rest =>
    (∀ a ∈ fbs, ReadOK env a) ∧ (∀ a ∈ cbs, ReadOK env a) ∧
    wsJaxpr sub ∧ wsSubs env rest

end

/-- The evaluation environment of eval_jaxpr (a Python dict): a map from
variables to values; a missing key is none. -/
def EvalEnv (V : Type) := Var → Option V

/-- Result of a primitive's concrete rule during evaluation. -/
inductive EvalAns (V : Type) where
  | single (x : V)
  | multi (xs : List V)

/-- The primitive tables consulted by eval_jaxpr: each primitive index has
a concrete rule (taking the sub-program callables, the input values and
the static params) and a multiple_results flag; unitV is the unit value
pre-bound to unitvar (core.py lines 525-527). -/
structure PrimSem (V : Type) where
  impl : Nat → List (List V → Option (List V)) → List V → Nat → Option (EvalAns V)
  mr : Nat → Bool
  unitV : V

/-- Embeds write in eval_jaxpr (core.py lines 172-173): a dict update,
silently overwriting. -/
def writeE {V : Type} (env : EvalEnv V) (v : Var) (x : V) : EvalEnv V :=
  fun w => if w = v then some x else env w

/-- Embeds map(write, vs, xs) with safe_map: the lists must have equal
length (none models the assertion failure), writing pairwise. -/
def writeManyE {V : Type} (env : EvalEnv V) : List Var → List V → Option (EvalEnv V)
  | [], [] => some env
  | v :: vs, x :: xs => writeManyE (writeE env v x) vs xs
  | _, _ => none

/-- Embeds read in eval_jaxpr (core.py lines 166-170): a Literal resolves
to its embedded value, a variable to its binding (KeyError is none). -/
def readAtomE {V : Type} (env : EvalEnv V) : Atom V → Option V
  | .lit x => some x
  | .var v => env v

/-- Reads a list of atoms in order. -/
def readAtomsE {V : Type} (env : EvalEnv V) : List (Atom V) → Option (List V)
  | [] => some []
  | a :: rest => do
    let x ← readAtomE env a
    let xs ← readAtomsE env rest
    pure (x :: xs)

mutual

/-- Embeds eval_jaxpr (core.py lines 165-192): pre-bind unitvar to the
unit value, bind constvars to consts, invars to args and freevars to
freevar_vals, run the equations, then read the declared outputs.  Every
dispatch inside the loop goes through bind with concrete operands, which
calls the primitive's concrete rule directly (claim C2's no-tracer case),
so the rule table sem.impl is applied. -/
def eval_jaxpr {V : Type} (sem : PrimSem V) :
    Jaxpr V → List V → List V → List V → Option (List V)
  | .mk cvs fvs ivs outs eqns, consts, freevar_vals, args => do
    let env0 : EvalEnv V := writeE (fun _ => none) Var.unitvar sem.unitV
    let env1 ← writeManyE env0 cvs consts
    let env2 ← writeManyE env1 ivs args
    let env3 ← writeManyE env2 fvs freevar_vals
    let env4 ← evalEqns sem env3 eqns
    readAtomsE env4 outs

/-- The equation loop of eval_jaxpr (core.py lines 180-191): read the
inputs, build the sub-program callables, run the primitive's rule, then
write one output variable (single result) or each output variable in
order (multiple results; length mismatch is the safe_map assertion). -/
def evalEqns {V : Type} (sem : PrimSem V) (env : EvalEnv V) :
    List (JEqn V) → Option (EvalEnv V)
  | [] => some env
  | .mk invars outvars prim subs params :: rest => do
    let in_vals ← readAtomsE env invars
    let subfuns ← mkSubfuns sem env subs
    let ans ← sem.impl prim subfuns in_vals params
    match ans, sem.mr prim with
    | .multi xs, true => do
        let env1 ← writeManyE env outvars xs
        evalEqns sem env1 rest
    | .single x, false =>
        match outvars with
        | v :: _ => evalEqns sem (writeE env v x) rest
        | [] => none
    | _, _ => none

/-- Embeds the subfuns comprehension (core.py lines 182-186): the closure
bindings are read eagerly from the current environment, and each
sub-program becomes a callable that evaluates it on later arguments. -/
def mkSubfuns {V : Type} (sem : PrimSem V) (env : EvalEnv V) :
    List (SubJaxpr V) → Option (List (List V → Option (List V)))
  | [] => some []
  | .mk sub cbs fbs :: rest => do
    let cvals ← readAtomsE env cbs
    let fvals ← readAtomsE env fbs
    let fns ← mkSubfuns sem env rest
    pure ((fun xs => eval_jaxpr sem sub cvals fvals xs) :: fns)

end

/-- A Python value as seen by class Literal (core.py lines 89-115): its
object identity oid (for `is` and id()), whether hash(val) succeeds and
its result, whether type(val) is registered in literalable_types, and the
surrogate pair (val.item(), val.dtype) when those attributes exist and the
pair is hashable. -/
structure PyVal where
  oid : Nat
  hashable : Bool
  hsh : Nat
  typeRegistered : Bool
  surrogate : Option (Nat × Nat)
deriving DecidableEq, Repr

/-- State of the hash slot of a Literal after __init__: assigned a number,
assigned None, or never assigned (the slot stays empty when hash(val)
fails and type(val) is not in literalable_types). -/
inductive HashField where
  | set (h : Nat)
  | noneVal
  | unset
deriving DecidableEq, Repr

/-- A constructed Literal: the wrapped value and its hash slot. -/
structure Literal where
  val : PyVal
  hash : HashField
deriving DecidableEq, Repr

/-- The hash of a Python pair, for hash((val.item(), val.dtype)). -/
def pairHash (i d : Nat) : Nat := Nat.pair i d

/-- Embeds Literal.__init__ (core.py lines 92-101): try hash(val); on
TypeError, if the type is registered try the surrogate pair hash, and on
a second failure set the slot to None; if the type is not registered the
except branch does nothing and the slot is never assigned. -/
def Literal.init (v : PyVal) : Literal :=
  if v.hashable then ⟨v, .set v.hsh⟩
  else if v.typeRegistered then
    match v.surrogate with
    | some (i, d) => ⟨v, .set (pairHash i d)⟩
    | none => ⟨v, .noneVal⟩
  else ⟨v, .unset⟩

/-- Embeds Literal.__hash__ (core.py lines 103-104): id(self.val) when the
slot is None, else the stored hash; reading an unset slot raises
AttributeError. -/
def Literal.pyHash (l : Literal) : Except String Nat :=
  match l.hash with
  | .set h => Except.ok h
  | .noneVal => Except.ok l.val.oid
  | .unset => Except.error "AttributeError"

/-- Embeds Literal.__eq__ (core.py lines 106-107): identity comparison of
the wrapped values when the slot is None, else value equality (the
parameter veq models Python ==); reading an unset slot raises
AttributeError. -/
def Literal.pyEq (veq : PyVal → PyVal → Bool) (l other : Literal) :
    Except String Bool :=
  match l.hash with
  | .set _ => Except.ok (veq l.val other.val)
  | .noneVal => Except.ok (decide (l.val.oid = other.val.oid))
  | .unset => Except.error "AttributeError"

/-- Embeds class TraceStack (core.py lines 379-400): the upward and
downward sub-stacks of master activations. -/
structure TraceStack where
  upward : List MasterTrace
  downward : List MasterTrace
deriving DecidableEq, Repr

/-- Embeds TraceStack.next_level (core.py lines 384-388). -/
def TraceStack.next_level (ts : TraceStack) (bottom : Bool) : Int :=
  if bottom then -(ts.downward.length + 1 : Int) else (ts.upward.length : Int)

/-- Embeds TraceStack.push (core.py lines 390-394): list.append on the
chosen sub-stack. -/
def TraceStack.pushMT (ts : TraceStack) (m : MasterTrace) (bottom : Bool) :
    TraceStack :=
  if bottom then { ts with downward := ts.downward ++ [m] }
  else { ts with upward := ts.upward ++ [m] }

/-- Embeds TraceStack.pop (core.py lines 396-400): list.pop removes the
last element of the chosen sub-stack. -/
def TraceStack.popMT (ts : TraceStack) (bottom : Bool) : TraceStack :=
  if bottom then { ts with downward := ts.downward.dropLast }
  else { ts with upward := ts.upward.dropLast }

/-- Outcome of running a with-block's body: a normal value or a raised
exception. -/
inductive Outcome (α : Type) where
  | normal (a : α)
  | raised (msg : Nat)
deriving DecidableEq, Repr

/-- Embeds one execution of the with new_master(trace_type, bottom) scope
(core.py lines 425-434): compute the next level, build the master, push
it, run the body (which may itself use and return the stack and may raise),
and pop in the finally clause on either exit path.  The check_leaks block
after the finally is disabled (check_leaks = False, line 34). -/
def new_master_run {α : Type} (traceTy : Nat) (mid : Nat) (bottom : Bool)
    (ts : TraceStack)
    (body : MasterTrace → TraceStack → Outcome α × TraceStack) :
    Outcome α × TraceStack :=
  let level := ts.next_level bottom
  let master : MasterTrace := ⟨mid, level, traceTy⟩
  let ts1 := ts.pushMT master bottom
  let (out, ts2) := body master ts1
  (out, ts2.popMT bottom)

/-- Embeds one execution of the with new_sublevel() scope (core.py lines
444-451): append Sublevel(len(substack)), run the body, and pop in the
finally clause on either exit path. -/
def new_sublevel_run {α : Type} (ss : List Nat)
    (body : Nat → List Nat → Outcome α × List Nat) :
    Outcome α × List Nat :=
  let sub := ss.length
  let ss1 := ss ++ [sub]
  let (out, ss2) := body sub ss1
  (out, ss2.dropLast)

/-- A deferred finalizer collected by process_env_traces: the trace it
reconciled together with the cur_todo closure returned by that trace's
post_process_call. -/
abbrev Todo : Type := TraceRef × (List Value → List Value)

/-- The tracers in outs owned by interpreters strictly above the given
level (the comprehension in core.py line 554). -/
def envTracers (level : Int) (outs : List Value) : List TraceRef :=
  (tracer_traces outs).filter (fun tr => level < tr.master.level)

/-- Embeds the reconciliation loop of process_env_traces (core.py lines
548-563): while some output tracer lives above the call's level, pick the
one with the maximal level, rebuild its trace at the current sublevel,
full_raise every output to it, run its post_process_call (the parameter
ppc) and append the returned todo.  The source loop terminates because
each post_process_call returns outputs below its own level; the fuel
argument makes the recursion well-founded in the model. -/
def processEnvLoop (curSub : Nat) (ops : TraceOps)
    (ppc : TraceRef → List Value → List Value × (List Value → List Value))
    (level : Int) :
    Nat → List Value → List Todo → Except String (List Value × List Todo)
  | 0, _, _ => Except.error "out of fuel"
  | fuel + 1, outs, todo =>
    match max_by_level (envTracers level outs) with
    | none => Except.ok (outs, todo)
    | some ansTr =>
      let trace : TraceRef := ⟨ansTr.master, curSub⟩
      match outs.mapM
          (full_raise trace (ops.pureF trace) (ops.liftF trace)
            (ops.subliftF trace)) with
      | .error e => Except.error e
      | .ok outs1 =>
        let res := ppc trace outs1
        processEnvLoop curSub ops ppc level fuel res.1 (todo ++ [(trace, res.2)])

/-- Embeds apply_todos (core.py lines 543-546): while the todo list is
nonempty, pop its last element, apply it to the outputs and full_lower
each result.  Recursion is phrased over the reversed list, making the
pop-from-the-end order explicit. -/
def apply_todos_rev (tfl : Value → Value) :
    List Todo → List Value → List Value
  | [], outs => outs
  | td :: rest, outs => apply_todos_rev tfl rest ((td.2 outs).map (full_lower tfl))

/-- Embeds apply_todos on the todo list in the order process_env_traces
collected it. -/
def apply_todos (tfl : Value → Value) (todos : List Todo)
    (outs : List Value) : List Value :=
  apply_todos_rev tfl todos.reverse outs

/-- The spec's scenario graph: inputs a and b, one equation c = add a b,
empty constants, output list [c]. -/
def addJaxpr : Jaxpr Nat :=
  .mk [] [] [.named 0, .named 1] [.var (.named 2)]
    [.mk [.var (.named 0), .var (.named 1)] [.named 2] 0 [] 0]

/-- A rule table whose primitive 0 is single-result addition. -/
def addSem : PrimSem Nat where
  impl := fun _ _ vals _ => match vals with
    | [x, y] => some (.single (x + y))
    | _ => none
  mr := fun _ => false
  unitV := 0

/-- Levels of the traces a todo list was collected from. -/
def todoLevels (todos : List Todo) : List Int :=
  todos.map (fun td => td.1.master.level)

/-!  Theorems.  Each claim of the specification is settled below; helper
lemmas carry the shared reasoning. -/

/-- C1: behaviour of the lifting protocol.  For a target interpreter T and
a tracer t: same master and equal sublevel returns t unchanged; same
master and strictly smaller sublevel returns T.sublift(t); same master and
strictly greater sublevel raises; strictly lower level with sublevel not
exceeding T's returns T.lift(t); strictly lower level with greater
sublevel raises; strictly higher level, or a different master at the
identical level, raises.  A non-tracer value is returned as T.pure(v).
The hypothesis hid records that Python object identity of masters
determines the object. -/
theorem full_raise_cases (T : TraceRef) (pureF liftF subliftF : Value → Value)
    (tr : TraceRef) (p : Nat)
    (hid : tr.master.mid = T.master.mid → tr.master = T.master) :
    (tr.master.mid = T.master.mid → tr.sublevel = T.sublevel →
        full_raise T pureF liftF subliftF (.tracer tr p)
          = Except.ok (.tracer tr p)) ∧
    (tr.master.mid = T.master.mid → tr.sublevel < T.sublevel →
        full_raise T pureF liftF subliftF (.tracer tr p)
          = Except.ok (subliftF (.tracer tr p))) ∧
    (tr.master.mid = T.master.mid → T.sublevel < tr.sublevel →
        isErr (full_raise T pureF liftF subliftF (.tracer tr p)) = true) ∧
    (tr.master.level < T.master.level → tr.sublevel ≤ T.sublevel →
        full_raise T pureF liftF subliftF (.tracer tr p)
          = Except.ok (liftF (.tracer tr p))) ∧
    (tr.master.level < T.master.level → T.sublevel < tr.sublevel →
        isErr (full_raise T pureF liftF subliftF (.tracer tr p)) = true) ∧
    (T.master.level < tr.master.level →
        isErr (full_raise T pureF liftF subliftF (.tracer tr p)) = true) ∧
    (tr.master.mid ≠ T.master.mid → tr.master.level = T.master.level →
        isErr (full_raise T pureF liftF subliftF (.tracer tr p)) = true) ∧
    (∀ v : Value, v.isTracer = false →
        full_raise T pureF liftF subliftF v = Except.ok (pureF v)) := by
  have hmidne : tr.master.level ≠ T.master.level → tr.master.mid ≠ T.master.mid :=
    fun hlv hm => hlv (congrArg MasterTrace.level (hid hm))
  refine ⟨?_, ?_, ?_, ?_, ?_, ?_, ?_, ?_⟩
  · intro h1 h2
    simp [full_raise, h1, h2]
  · intro h1 h2
    have hne : tr.sublevel ≠ T.sublevel := Nat.ne_of_lt h2
    simp [full_raise, h1, hne, h2]
  · intro h1 h2
    have hne : tr.sublevel ≠ T.sublevel := (Nat.ne_of_lt h2).symm
    have hnlt : ¬ tr.sublevel < T.sublevel := Nat.not_lt_of_gt h2
    simp [full_raise, h1, hne, hnlt, isErr]
  · intro h1 h2
    have hm : tr.master.mid ≠ T.master.mid := hmidne (Int.ne_of_lt h1)
    have hns : ¬ tr.sublevel > T.sublevel := Nat.not_lt_of_ge h2
    simp [full_raise, hm, h1, hns]
  · intro h1 h2
    have hm : tr.master.mid ≠ T.master.mid := hmidne (Int.ne_of_lt h1)
    simp [full_raise, hm, h1, h2, isErr]
  · intro h1
    have hm : tr.master.mid ≠ T.master.mid := hmidne (Int.ne_of_gt h1)
    have hnlt : ¬ tr.master.level < T.master.level := by omega
    simp [full_raise, hm, hnlt, h1, isErr]
  · intro h1 h2
    have hnlt : ¬ tr.master.level < T.master.level := by omega
    have hngt : ¬ T.master.level < tr.master.level := by omega
    simp [full_raise, h1, hnlt, hngt, h2, isErr]
  · intro v hv
    cases v with
    | concrete n => simp [full_raise]
    | tracer tr2 p2 => simp [Value.isTracer] at hv

/-- C1 witness: a tracer already owned by the target trace at the same
sublevel is returned unchanged. -/
theorem full_raise_cases_witness :
    full_raise ⟨⟨1, 0, 0⟩, 2⟩ id id id (.tracer ⟨⟨1, 0, 0⟩, 2⟩ 5)
      = Except.ok (.tracer ⟨⟨1, 0, 0⟩, 2⟩ 5) :=
  (full_raise_cases ⟨⟨1, 0, 0⟩, 2⟩ id id id ⟨⟨1, 0, 0⟩, 2⟩ 5
    (fun _ => rfl)).1 rfl rfl

/-- C7: full_lower is idempotent and returns every non-Tracer value
unchanged.  The tracer-level method (modelled from the spec: a tracer's
own full_lower, defined by Trace subclasses outside this module, strips
wrappers carrying no information, so a tracer it produces is itself fully
lowered) is the parameter tfl with contract hfl. -/
theorem full_lower_idem (tfl : Value → Value)
    (hfl : ∀ v : Value, (tfl v).isTracer = true → tfl (tfl v) = tfl v) :
    (∀ v : Value, full_lower tfl (full_lower tfl v) = full_lower tfl v) ∧
    (∀ v : Value, v.isTracer = false → full_lower tfl v = v) := by
  constructor
  · intro v
    cases v with
    | concrete n => rfl
    | tracer tr p =>
      show full_lower tfl (tfl (Value.tracer tr p)) = tfl (Value.tracer tr p)
      cases h : tfl (Value.tracer tr p) with
      | concrete n => simp [full_lower]
      | tracer tr2 p2 =>
        have := hfl (Value.tracer tr p) (by rw [h]; rfl)
        rw [h] at this
        simpa [full_lower] using this
  · intro v hv
    cases v with
    | concrete n => rfl
    | tracer tr p => simp [Value.isTracer] at hv

/-- C7 witness: lowering twice equals lowering once on a concrete tracer,
with a tracer-level method that strips the wrapper. -/
theorem full_lower_idem_witness :
    full_lower (fun _ => Value.concrete 0)
        (full_lower (fun _ => Value.concrete 0) (.tracer ⟨⟨0, 0, 0⟩, 0⟩ 1))
      = full_lower (fun _ => Value.concrete 0) (.tracer ⟨⟨0, 0, 0⟩, 0⟩ 1) :=
  (full_lower_idem (fun _ => Value.concrete 0)
    (by intro v h; simp [Value.isTracer] at h)).1 (.tracer ⟨⟨0, 0, 0⟩, 0⟩ 1)

/-- C10: the identity primitive's registered custom bind is the identity
function, returning its operand unchanged for every value including
tracers; being a function of its operand alone (no trace state, registry,
or interpreter table among its arguments), it consults neither
find_top_trace nor full_raise nor any process_primitive.  Its concrete
rule is likewise the identity. -/
theorem identity_bind_id :
    (∀ v : Value, identity_bind v = v) ∧ (∀ v : Value, identity_impl v = v) :=
  ⟨fun _ => rfl, fun _ => rfl⟩

/-- C8: scoped release.  Running a new_master block pushes one master and
pops it again on every exit path (the Outcome covers both normal returns
and raised exceptions), restoring the trace stack to its prior state
whenever the body itself leaves the stack as it found it; likewise a
new_sublevel block restores the sublevel stack. -/
theorem scoped_release (α : Type) (traceTy mid : Nat) (bottom : Bool)
    (ts : TraceStack)
    (bodyM : MasterTrace → TraceStack → Outcome α × TraceStack)
    (ss : List Nat) (bodyS : Nat → List Nat → Outcome α × List Nat)
    (hM : ∀ m s, (bodyM m s).2 = s) (hS : ∀ n s, (bodyS n s).2 = s) :
    (new_master_run traceTy mid bottom ts bodyM).2 = ts ∧
    (new_sublevel_run ss bodyS).2 = ss := by
  constructor
  · show ((bodyM _ (ts.pushMT _ bottom)).2).popMT bottom = ts
    rw [hM]
    cases bottom <;> simp [TraceStack.pushMT, TraceStack.popMT]
  · show ((bodyS _ (ss ++ [ss.length])).2).dropLast = ss
    rw [hS]
    simp

/-- C8 witness: a body that raises still leaves both stacks restored. -/
theorem scoped_release_witness :
    (new_master_run 0 0 false ⟨[], []⟩
        (fun _ s => (Outcome.raised (α := Nat) 7, s))).2 = ⟨[], []⟩ ∧
    (new_sublevel_run [0] (fun _ s => (Outcome.raised (α := Nat) 7, s))).2 = [0] :=
  scoped_release Nat 0 0 false ⟨[], []⟩ (fun _ s => (Outcome.raised 7, s))
    [0] (fun _ s => (Outcome.raised 7, s)) (fun _ _ => rfl) (fun _ _ => rfl)

/-- Helper: a value contributes a trace to tracer_traces exactly when it
is a Tracer. -/
theorem tracer_traces_nil_iff (args : List Value) :
    tracer_traces args = [] ↔ ∀ a ∈ args, a.isTracer = false := by
  simp only [tracer_traces, List.filterMap_eq_nil_iff]
  constructor
  · intro h a ha
    cases a with
    | concrete n => rfl
    | tracer tr p => have := h _ ha; simp at this
  · intro h a ha
    cases a with
    | concrete n => rfl
    | tracer tr p => have := h _ ha; simp [Value.isTracer] at this

/-- Helper: Python max with the level key returns an element of the list
of maximal level. -/
theorem max_by_level_spec (l : List TraceRef) (m : TraceRef)
    (h : max_by_level l = some m) :
    m ∈ l ∧ ∀ x ∈ l, x.master.level ≤ m.master.level := by
  have aux : ∀ (ts : List TraceRef) (acc : TraceRef),
      (ts.foldl (fun acc x => if x.master.level > acc.master.level then x else acc) acc = acc ∨
        ts.foldl (fun acc x => if x.master.level > acc.master.level then x else acc) acc ∈ ts) ∧
      acc.master.level ≤ (ts.foldl (fun acc x => if x.master.level > acc.master.level then x else acc) acc).master.level ∧
      ∀ x ∈ ts, x.master.level ≤ (ts.foldl (fun acc x => if x.master.level > acc.master.level then x else acc) acc).master.level := by
    intro ts
    induction ts with
    | nil => intro acc; exact ⟨Or.inl rfl, le_refl _, by simp⟩
    | cons x ts ih =>
      intro acc
      by_cases hx : x.master.level > acc.master.level
      · have h1 := ih x
        simp only [List.foldl_cons, if_pos hx]
        refine ⟨?_, ?_, ?_⟩
        · rcases h1.1 with h2 | h2
          · exact Or.inr (by rw [h2]; exact List.mem_cons_self x ts)
          · exact Or.inr (List.mem_cons_of_mem x h2)
        · exact le_trans (le_of_lt hx) h1.2.1
        · intro y hy
          rcases List.mem_cons.mp hy with h2 | h2
          · rw [h2]; exact h1.2.1
          · exact h1.2.2 y h2
      · have h1 := ih acc
        simp only [List.foldl_cons, if_neg hx]
        refine ⟨?_, ?_, ?_⟩
        · rcases h1.1 with h2 | h2
          · exact Or.inl h2
          · exact Or.inr (List.mem_cons_of_mem x h2)
        · exact h1.2.1
        · intro y hy
          rcases List.mem_cons.mp hy with h2 | h2
          · rw [h2]; exact le_trans (le_of_not_lt hx) h1.2.1
          · exact h1.2.2 y h2
  cases l with
  | nil => simp [max_by_level] at h
  | cons t ts =>
    simp only [max_by_level, Option.some.injEq] at h
    subst h
    have h1 := aux ts t
    refine ⟨?_, ?_⟩
    · rcases h1.1 with h2 | h2
      · rw [h2]; exact List.mem_cons_self t ts
      · exact List.mem_cons_of_mem t h2
    · intro x hx
      rcases List.mem_cons.mp hx with h2 | h2
      · rw [h2]; exact h1.2.1
      · exact h1.2.2 x h2

/-- Helper: find_top_trace returns none exactly when no argument is a
Tracer. -/
theorem find_top_trace_none_iff (curSub : Nat) (args : List Value) :
    find_top_trace curSub args = none ↔ ∀ a ∈ args, a.isTracer = false := by
  simp only [find_top_trace, Option.map_eq_none']
  cases h : tracer_traces args with
  | nil => simpa [max_by_level, h] using (tracer_traces_nil_iff args).mp h
  | cons t ts =>
    simp only [max_by_level]
    constructor
    · intro h2; exact absurd h2 (by simp)
    · intro h2
      have := (tracer_traces_nil_iff args).mpr h2
      rw [h] at this; exact absurd this (by simp)

/-- C2: the bind dispatch protocol.  With the module's skip_checks: if no
argument is a Tracer, bind calls the concrete rule directly and returns
its result; otherwise the top trace handed to dispatch sits at the current
sublevel and at the maximal level among the tracer arguments, every
argument is raised to it via full_raise, its process_primitive runs, and
full_lower is applied to the result, independently per output when the
primitive has multiple_results. -/
theorem bind_dispatch (p : Primitive) (reg : Nat → Bool) (curSub : Nat)
    (impl : List Value → Nat → BindRes) (ops : TraceOps)
    (procPrim : TraceRef → List Value → Nat → BindRes)
    (tfl : Value → Value) (params : Nat) (args : List Value) :
    ((∀ a ∈ args, a.isTracer = false) →
        p.bind skip_checks reg curSub impl ops procPrim tfl params args
          = Except.ok (impl args params)) ∧
    (∀ top, find_top_trace curSub args = some top →
        (top.sublevel = curSub ∧
          top.master ∈ (tracer_traces args).map TraceRef.master ∧
          (∀ tr ∈ tracer_traces args, tr.master.level ≤ top.master.level)) ∧
        ∀ tracers,
          args.mapM (full_raise top (ops.pureF top) (ops.liftF top)
              (ops.subliftF top)) = Except.ok tracers →
          ((p.multiple_results = true →
              ∀ vs, procPrim top tracers params = .multi vs →
                p.bind skip_checks reg curSub impl ops procPrim tfl params args
                  = Except.ok (.multi (vs.map (full_lower tfl)))) ∧
            (p.multiple_results = false →
              ∀ v, procPrim top tracers params = .single v →
                p.bind skip_checks reg curSub impl ops procPrim tfl params args
                  = Except.ok (.single (full_lower tfl v))))) := by
  constructor
  · intro hnt
    have hft : find_top_trace curSub args = none :=
      (find_top_trace_none_iff curSub args).mpr hnt
    simp [Primitive.bind, skip_checks, hft]
  · intro top htop
    obtain ⟨tr, hmb, htr⟩ := Option.map_eq_some'.mp htop
    have hspec := max_by_level_spec _ _ hmb
    refine ⟨⟨?_, ?_, ?_⟩, ?_⟩
    · rw [← htr]
    · rw [← htr]; exact List.mem_map.mpr ⟨tr, hspec.1, rfl⟩
    · rw [← htr]; exact hspec.2
    · intro tracers htracers
      constructor
      · intro hmr vs hvs
        simp only [Primitive.bind, skip_checks, Bool.true_or, htop]
        rw [htracers]
        simp [hmr, hvs]
      · intro hmr v hv
        simp only [Primitive.bind, skip_checks, Bool.true_or, htop]
        rw [htracers]
        simp [hmr, hv]

/-- C2 witness: one tracer argument at the top trace itself; dispatch
raises it (unchanged), runs process_primitive and lowers the single
result. -/
theorem bind_dispatch_witness :
    Primitive.bind ⟨"mul", false⟩ skip_checks (fun _ => false) 0
        (fun _ _ => BindRes.single (Value.concrete 0))
        ⟨fun _ v => v, fun _ v => v, fun _ v => v⟩
        (fun _ _ _ => BindRes.single (Value.concrete 3)) (fun v => v) 0
        [Value.tracer ⟨⟨0, 0, 0⟩, 0⟩ 1]
      = Except.ok (BindRes.single (Value.concrete 3)) :=
  ((bind_dispatch ⟨"mul", false⟩ (fun _ => false) 0
      (fun _ _ => BindRes.single (Value.concrete 0))
      ⟨fun _ v => v, fun _ v => v, fun _ v => v⟩
      (fun _ _ _ => BindRes.single (Value.concrete 3)) (fun v => v) 0
      [Value.tracer ⟨⟨0, 0, 0⟩, 0⟩ 1]).2 ⟨⟨0, 0, 0⟩, 0⟩ rfl).2
    [Value.tracer ⟨⟨0, 0, 0⟩, 0⟩ 1] rfl |>.2 rfl (Value.concrete 3) rfl

/-- C3 counterexample: the module ships skip_checks = True (core.py line
36), so an operand that is neither a Tracer nor an instance of a
registered concrete type (here the registry rejects everything) is not
rejected: bind proceeds to dispatch and returns the concrete rule's
result instead of failing. -/
theorem bind_skip_checks_cex :
    Primitive.bind ⟨"mul", false⟩ skip_checks (fun _ => false) 0
        (fun _ _ => BindRes.single (Value.concrete 42))
        ⟨fun _ v => v, fun _ v => v, fun _ v => v⟩
        (fun _ _ _ => BindRes.single (Value.concrete 0)) (fun v => v) 0
        [Value.concrete 7]
      = Except.ok (BindRes.single (Value.concrete 42)) := rfl

/-- C3 amended: only when the skip_checks flag is off does bind reject an
operand that is neither a Tracer nor of a registered concrete type; the
rejection (the assert on core.py line 128) happens before dispatch — the
error is produced for every concrete rule and every interpreter table, so
no interpreter is invoked. -/
theorem bind_rejects_invalid (p : Primitive) (reg : Nat → Bool)
    (curSub : Nat) (params : Nat) (args : List Value) (a : Value)
    (ha : a ∈ args) (hnt : a.isTracer = false)
    (hreg : valid_jaxtype reg a = false) :
    ∀ impl ops procPrim tfl,
      p.bind false reg curSub impl ops procPrim tfl params args
        = Except.error "invalid argument types" := by
  intro impl ops procPrim tfl
  have hall : args.all (fun a => a.isTracer || valid_jaxtype reg a) = false := by
    rw [List.all_eq_false]
    exact ⟨a, ha, by simp [hnt, hreg]⟩
  simp [Primitive.bind, hall]

/-- C3 amended witness: with checks enabled, an unregistered concrete
operand is rejected. -/
theorem bind_rejects_invalid_witness :
    Primitive.bind ⟨"mul", false⟩ false (fun _ => false) 0
        (fun _ _ => BindRes.single (Value.concrete 42))
        ⟨fun _ v => v, fun _ v => v, fun _ v => v⟩
        (fun _ _ _ => BindRes.single (Value.concrete 0)) (fun v => v) 0
        [Value.concrete 7]
      = Except.error "invalid argument types" :=
  bind_rejects_invalid ⟨"mul", false⟩ (fun _ => false) 0 0
    [Value.concrete 7] (Value.concrete 7) (List.mem_singleton.mpr rfl) rfl rfl
    (fun _ _ => BindRes.single (Value.concrete 42))
    ⟨fun _ v => v, fun _ v => v, fun _ v => v⟩
    (fun _ _ _ => BindRes.single (Value.concrete 0)) (fun v => v)

/-- C5 counterexample: an unhashable value whose type is not registered in
literalable_types.  The claim says its Literal's equality and hashing fall
back to object identity, but __init__ leaves the hash slot unassigned in
this case, so __eq__ raises AttributeError — the Literal is not even equal
to itself, rather than falling back to identity. -/
theorem literal_unset_cex :
    Literal.pyEq (fun u v => decide (u = v))
        (Literal.init ⟨0, false, 0, false, none⟩)
        (Literal.init ⟨0, false, 0, false, none⟩)
      = Except.error "AttributeError" := rfl

/-- Helper: the constructed Literal always wraps the given value. -/
theorem literal_init_val (v : PyVal) : (Literal.init v).val = v := by
  by_cases h1 : v.hashable = true
  · simp [Literal.init, h1]
  · by_cases h2 : v.typeRegistered = true
    · cases hs : v.surrogate with
      | none => simp [Literal.init, h1, h2, hs]
      | some p => cases p; simp [Literal.init, h1, h2, hs]
    · simp [Literal.init, h1, h2]

/-- C5 amended: Literal equality and hashing.  For hashable values,
equality of Literals follows value equality and the hash is the value's
hash (so equal hashable values hash identically, by the Python hash
contract hcontract).  For an unhashable value of a registered type with a
usable surrogate, the hash derives from the (item, dtype) pair.  For an
unhashable registered value whose surrogate also fails, equality and
hashing fall back to object identity, and two distinct such objects are
never equal.  For an unhashable value of an unregistered type, the hash
slot stays unset and both operations raise AttributeError. -/
theorem literal_eq_hash (veq : PyVal → PyVal → Bool) (u v : PyVal)
    (hcontract : veq u v = true → u.hsh = v.hsh) :
    (u.hashable = true → v.hashable = true →
        Literal.pyEq veq (Literal.init u) (Literal.init v)
          = Except.ok (veq u v) ∧
        Literal.pyHash (Literal.init u) = Except.ok u.hsh ∧
        (veq u v = true →
          Literal.pyHash (Literal.init u) = Literal.pyHash (Literal.init v))) ∧
    (u.hashable = false → u.typeRegistered = true →
        ∀ i d, u.surrogate = some (i, d) →
          Literal.pyHash (Literal.init u) = Except.ok (pairHash i d)) ∧
    (u.hashable = false → u.typeRegistered = true → u.surrogate = none →
        Literal.pyEq veq (Literal.init u) (Literal.init v)
          = Except.ok (decide (u.oid = v.oid)) ∧
        Literal.pyHash (Literal.init u) = Except.ok u.oid ∧
        (u.oid ≠ v.oid →
          Literal.pyEq veq (Literal.init u) (Literal.init v)
            = Except.ok false)) ∧
    (u.hashable = false → u.typeRegistered = false →
        Literal.pyEq veq (Literal.init u) (Literal.init v)
          = Except.error "AttributeError" ∧
        Literal.pyHash (Literal.init u) = Except.error "AttributeError") := by
  refine ⟨?_, ?_, ?_, ?_⟩
  · intro hu hv
    have h1 : Literal.init u = ⟨u, .set u.hsh⟩ := by simp [Literal.init, hu]
    refine ⟨?_, ?_, ?_⟩
    · rw [h1]
      simp [Literal.pyEq, literal_init_val]
    · rw [h1]
      simp [Literal.pyHash]
    · intro heq
      simp [Literal.init, hu, hv, Literal.pyHash, hcontract heq]
  · intro hu hr i d hs
    simp [Literal.init, hu, hr, hs, Literal.pyHash]
  · intro hu hr hs
    have h1 : Literal.init u = ⟨u, .noneVal⟩ := by simp [Literal.init, hu, hr, hs]
    refine ⟨?_, ?_, ?_⟩
    · rw [h1]
      simp [Literal.pyEq, literal_init_val]
    · rw [h1]
      simp [Literal.pyHash]
    · intro hne
      rw [h1]
      simp [Literal.pyEq, literal_init_val, hne]
  · intro hu hr
    constructor
    · simp [Literal.init, hu, hr, Literal.pyEq]
    · simp [Literal.init, hu, hr, Literal.pyHash]

/-- C5 amended witness: two distinct hashable values with equal hashes
compare by value equality and hash identically. -/
theorem literal_eq_hash_witness :
    Literal.pyEq (fun a b => decide (a.hsh = b.hsh))
        (Literal.init ⟨1, true, 10, false, none⟩)
        (Literal.init ⟨2, true, 10, false, none⟩)
      = Except.ok ((fun a b : PyVal => decide (a.hsh = b.hsh))
          ⟨1, true, 10, false, none⟩ ⟨2, true, 10, false, none⟩) :=
  ((literal_eq_hash (fun a b => decide (a.hsh = b.hsh))
    ⟨1, true, 10, false, none⟩ ⟨2, true, 10, false, none⟩
    (fun _ => rfl)).1 rfl rfl).1

/-- C6: determinism of the graph interpreter.  The embedding of eval_jaxpr
with a fixed table of pure concrete rules is a mathematical function of
the graph, the constants, the free-variable values and the inputs, so two
runs on identical data produce identical outputs. -/
theorem eval_jaxpr_deterministic {V : Type} (sem : PrimSem V) (j : Jaxpr V)
    (c1 c2 f1 f2 a1 a2 : List V) (hc : c1 = c2) (hf : f1 = f2)
    (ha : a1 = a2) :
    eval_jaxpr sem j c1 f1 a1 = eval_jaxpr sem j c2 f2 a2 := by
  subst hc; subst hf; subst ha; rfl

/-- C6 witness: the spec's scenario graph (c = add a b) run on inputs
(2, 3) twice gives the same result, namely [5]. -/
theorem eval_jaxpr_deterministic_witness :
    eval_jaxpr addSem addJaxpr [] [] [2, 3]
        = eval_jaxpr addSem addJaxpr [] [] [2, 3] ∧
    eval_jaxpr addSem addJaxpr [] [] [2, 3] = some [5] :=
  ⟨eval_jaxpr_deterministic addSem addJaxpr [] [] [] [] [2, 3] [2, 3]
      rfl rfl rfl,
    rfl⟩

/-- Helper: reading a list of atoms succeeds exactly when every atom is a
literal or a bound variable. -/
theorem readAtomsCk_ok_iff {V : Type} (env : List Var) (as : List (Atom V)) :
    readAtomsCk env as = Except.ok () ↔ ∀ a ∈ as, ReadOK env a := by
  induction as with
  | nil => simp [readAtomsCk]
  | cons a rest ih =>
    cases a with
    | lit x => simp [readAtomsCk, readAtomCk, ReadOK, ih]
    | var v =>
      by_cases hv : v ∈ env
      · simp [readAtomsCk, readAtomCk, hv, ReadOK, ih]
      · simp [readAtomsCk, readAtomCk, hv, ReadOK]

/-- Helper: sequentially writing a variable list succeeds exactly when the
list has no duplicates and avoids the existing scope, and then prepends
the variables in reverse. -/
theorem writeVarsCk_ok_iff (vs : List Var) :
    ∀ env env', writeVarsCk env vs = Except.ok env' ↔
      ((vs.Nodup ∧ ∀ v ∈ vs, v ∉ env) ∧ env' = vs.reverse ++ env) := by
  induction vs with
  | nil =>
    intro env env'
    simp [writeVarsCk, eq_comm]
  | cons v vs ih =>
    intro env env'
    by_cases hv : v ∈ env
    · constructor
      · intro h
        simp [writeVarsCk, writeVarCk, hv] at h
      · rintro ⟨⟨hnd, hdisj⟩, henv⟩
        exact ((hdisj v (List.mem_cons_self v vs)) hv).elim
    · rw [show writeVarsCk env (v :: vs) = writeVarsCk (v :: env) vs from by
        simp [writeVarsCk, writeVarCk, hv]]
      rw [ih]
      constructor
      · rintro ⟨⟨hnd, hdisj⟩, henv⟩
        refine ⟨⟨?_, ?_⟩, ?_⟩
        · rw [List.nodup_cons]
          refine ⟨?_, hnd⟩
          intro hvin
          exact (hdisj v hvin) (List.mem_cons_self v env)
        · intro w hw
          rcases List.mem_cons.mp hw with rfl | hw2
          · exact hv
          · intro hwenv
            exact (hdisj w hw2) (List.mem_cons_of_mem v hwenv)
        · rw [henv]; simp
      · rintro ⟨⟨hnd, hdisj⟩, henv⟩
        rw [List.nodup_cons] at hnd
        refine ⟨⟨hnd.2, ?_⟩, ?_⟩
        · intro w hw hwv
          rcases List.mem_cons.mp hwv with rfl | hw2
          · exact hnd.1 hw
          · exact (hdisj w (List.mem_cons_of_mem v hw)) hw2
        · rw [henv]; simp

mutual

/-- Helper (refinement, graph level): check_jaxpr accepts a graph exactly
when it is well-scoped in the declarative sense. -/
theorem checkJaxpr_iff {V : Type} (j : Jaxpr V) :
    check_jaxpr j = Except.ok () ↔ wsJaxpr j := by
  cases j with
  | mk cvs fvs ivs outs eqns =>
    simp only [check_jaxpr, wsJaxpr]
    split
    next e hw =>
      constructor
      · intro h; exact Except.noConfusion h
      · rintro ⟨hnd, -, -⟩
        have h0 : writeVarsCk [] (Var.unitvar :: (cvs ++ fvs ++ ivs))
            = Except.ok ((Var.unitvar :: (cvs ++ fvs ++ ivs)).reverse ++ []) :=
          (writeVarsCk_ok_iff _ [] _).mpr ⟨⟨hnd, by simp⟩, rfl⟩
        rw [hw] at h0
        exact Except.noConfusion h0
    next env hw =>
      have henv := (writeVarsCk_ok_iff _ [] env).mp hw
      have hnd := henv.1.1
      have henveq : env = (Var.unitvar :: (cvs ++ fvs ++ ivs)).reverse := by
        rw [henv.2]; simp
      subst henveq
      split
      next e2 he =>
        constructor
        · intro h; exact Except.noConfusion h
        · rintro ⟨-, hws, -⟩
          have h0 := (checkEqns_iff eqns _ _).mpr ⟨hws, rfl⟩
          rw [he] at h0
          exact Except.noConfusion h0
      next env1 he =>
        have h2 := (checkEqns_iff eqns _ env1).mp he
        rw [readAtomsCk_ok_iff]
        constructor
        · intro houts
          exact ⟨hnd, h2.1, by rw [← h2.2]; exact houts⟩
        · rintro ⟨-, -, houts⟩
          rw [h2.2]
          exact houts
termination_by sizeOf j

/-- Helper (refinement, equation-list level): the equation loop of
check_jaxpr succeeds exactly when the equations are well-scoped, and then
returns the accumulated scope. -/
theorem checkEqns_iff {V : Type} (eqns : List (JEqn V)) :
    ∀ env env', checkEqns env eqns = Except.ok env' ↔
      (wsEqns env eqns ∧ env' = accumEnvEqns env eqns) := by
  cases eqns with
  | nil =>
    intro env env'
    simp [checkEqns, wsEqns, accumEnvEqns, eq_comm]
  | cons e rest =>
    cases e with
    | mk invars outvars prim subs params =>
      intro env env'
      simp only [checkEqns, wsEqns, accumEnvEqns]
      split
      next e1 hr =>
        constructor
        · intro h; exact Except.noConfusion h
        · rintro ⟨⟨hin, -⟩, -⟩
          have h0 := (readAtomsCk_ok_iff env invars).mpr hin
          rw [hr] at h0; exact Except.noConfusion h0
      next hr =>
        have hin := (readAtomsCk_ok_iff env invars).mp hr
        split
        next e2 hs =>
          constructor
          · intro h; exact Except.noConfusion h
          · rintro ⟨⟨-, hsubs, -⟩, -⟩
            have h0 := (checkSubs_iff subs env).mpr hsubs
            rw [hs] at h0; exact Except.noConfusion h0
        next hs =>
          have hsubs := (checkSubs_iff subs env).mp hs
          split
          next e3 hwv =>
            constructor
            · intro h; exact Except.noConfusion h
            · rintro ⟨⟨-, -, hout, -⟩, -⟩
              have h0 := (writeVarsCk_ok_iff outvars env _).mpr ⟨hout, rfl⟩
              rw [hwv] at h0; exact Except.noConfusion h0
          next env1 hwv =>
            have hwv2 := (writeVarsCk_ok_iff outvars env env1).mp hwv
            have henv1 : env1 = outvars.reverse ++ env := hwv2.2
            subst henv1
            rw [checkEqns_iff rest _ env']
            constructor
            · rintro ⟨hrest, hacc⟩
              exact ⟨⟨hin, hsubs, hwv2.1, hrest⟩, hacc⟩
            · rintro ⟨⟨-, -, -, hrest⟩, hacc⟩
              exact ⟨hrest, hacc⟩
termination_by sizeOf eqns

/-- Helper (refinement, sub-program level): the bound sub-program loop of
check_jaxpr succeeds exactly when closures resolve and the sub-programs
are recursively well-scoped. -/
theorem checkSubs_iff {V : Type} (subs : List (SubJaxpr V)) :
    ∀ env, checkSubs env subs = Except.ok () ↔ wsSubs env subs := by
  cases subs with
  | nil =>
    intro env
    simp [checkSubs, wsSubs]
  | cons s rest =>
    cases s with
    | mk sub cbs fbs =>
      intro env
      simp only [checkSubs, wsSubs]
      split
      next e1 hf =>
        constructor
        · intro h; exact Except.noConfusion h
        · rintro ⟨hfb, -, -, -⟩
          have h0 := (readAtomsCk_ok_iff env fbs).mpr hfb
          rw [hf] at h0; exact Except.noConfusion h0
      next hf =>
        have hfb := (readAtomsCk_ok_iff env fbs).mp hf
        split
        next e2 hc =>
          constructor
          · intro h; exact Except.noConfusion h
          · rintro ⟨-, hcb, -, -⟩
            have h0 := (readAtomsCk_ok_iff env cbs).mpr hcb
            rw [hc] at h0; exact Except.noConfusion h0
        next hc =>
          have hcb := (readAtomsCk_ok_iff env cbs).mp hc
          split
          next e3 hj =>
            constructor
            · intro h; exact Except.noConfusion h
            · rintro ⟨-, -, hws, -⟩
              have h0 := (checkJaxpr_iff sub).mpr hws
              rw [hj] at h0; exact Except.noConfusion h0
          next hj =>
            have hws := (checkJaxpr_iff sub).mp hj
            rw [checkSubs_iff rest env]
            constructor
            · intro hrest
              exact ⟨hfb, hcb, hws, hrest⟩
            · rintro ⟨-, -, -, hrest⟩
              exact hrest
termination_by sizeOf subs

end

/-- C4: soundness and completeness of the structural validator.
check_jaxpr succeeds exactly on graphs in which (recursively, including
every bound sub-program) each read — equation inputs, sub-program closure
lists and the output list — names a previously written variable or a
literal, and no variable (the implicit unit variable and the declared
constvars, freevars and invars included) is written twice in its scope;
on every other graph, in particular one whose output list names an
undeclared variable, it reports an error.  The validator's type shows it
only inspects the graph: it executes no equation. -/
theorem check_jaxpr_spec {V : Type} (j : Jaxpr V) :
    (check_jaxpr j = Except.ok () ↔ wsJaxpr j) ∧
    (isErr (check_jaxpr j) = true ↔ ¬ wsJaxpr j) := by
  refine ⟨checkJaxpr_iff j, ?_⟩
  rw [← checkJaxpr_iff j]
  cases h : check_jaxpr j with
  | ok u => cases u; simp [isErr, h]
  | error e => simp [isErr]

/-- C9 counterexample: apply_todos pops finalizers from the end of the
todo list.  With the finalizers collected innermost-first (a level-2
todo, then a level-1 todo), each tagging the output list when applied,
the run shows the outermost (level-1) finalizer applied first and the
innermost (level-2) one last — not the claimed outermost-last order,
which would have produced the reversed tag list. -/
theorem apply_todos_order_cex :
    apply_todos (fun v => v)
        [(⟨⟨0, 2, 0⟩, 0⟩, fun o => o ++ [Value.concrete 2]),
          (⟨⟨1, 1, 0⟩, 0⟩, fun o => o ++ [Value.concrete 1])] []
      = [Value.concrete 1, Value.concrete 2] ∧
    ([Value.concrete 1, Value.concrete 2] : List Value)
      ≠ [Value.concrete 2, Value.concrete 1] := by
  exact ⟨rfl, by decide⟩

/-- Helper: the reconciliation loop selects interpreters at strictly
decreasing levels, all above the call's level and bounded by the levels
of tracers present in the outputs, provided every post_process_call
returns outputs strictly below its own trace's level. -/
theorem processEnvLoop_levels_aux (curSub : Nat) (ops : TraceOps)
    (ppc : TraceRef → List Value → List Value × (List Value → List Value))
    (level : Int)
    (Hppc : ∀ T outs, ∀ tr2 ∈ tracer_traces (ppc T outs).1,
        tr2.master.level < T.master.level) :
    ∀ (fuel : Nat) (outs : List Value) (acc : List Todo)
      (res : List Value) (todos : List Todo),
      processEnvLoop curSub ops ppc level fuel outs acc
          = Except.ok (res, todos) →
      ∃ tail, todos = acc ++ tail ∧
        List.Chain' (fun a b => b < a) (todoLevels tail) ∧
        (∀ l ∈ todoLevels tail, level < l) ∧
        (∀ l ∈ todoLevels tail, ∃ tr2 ∈ tracer_traces outs,
            l ≤ tr2.master.level) := by
  intro fuel
  induction fuel with
  | zero =>
    intro outs acc res todos h
    exact Except.noConfusion h
  | succ fuel ih =>
    intro outs acc res todos h
    simp only [processEnvLoop] at h
    cases hm : max_by_level (envTracers level outs) with
    | none =>
      simp only [hm] at h
      refine ⟨[], ?_, ?_, ?_, ?_⟩
      · have := (Prod.mk.injEq _ _ _ _).mp (Except.ok.inj h)
        rw [← this.2]; simp
      · simp [todoLevels]
      · simp [todoLevels]
      · simp [todoLevels]
    | some ansTr =>
      simp only [hm] at h
      cases hmm : outs.mapM
          (full_raise ⟨ansTr.master, curSub⟩
            (ops.pureF ⟨ansTr.master, curSub⟩)
            (ops.liftF ⟨ansTr.master, curSub⟩)
            (ops.subliftF ⟨ansTr.master, curSub⟩)) with
      | error e =>
        rw [hmm] at h
        exact Except.noConfusion h
      | ok outs1 =>
        rw [hmm] at h
        obtain ⟨tail, htail, hchain, hgt, hbound⟩ := ih _ _ _ _ h
        have hmspec := max_by_level_spec _ _ hm
        have hansmem : ansTr ∈ tracer_traces outs :=
          (List.mem_filter.mp hmspec.1).1
        have hanslevel : level < ansTr.master.level := by
          have := (List.mem_filter.mp hmspec.1).2
          exact of_decide_eq_true this
        have hless : ∀ l ∈ todoLevels tail, l < ansTr.master.level := by
          intro l hl
          obtain ⟨tr2, htr2, hle⟩ := hbound l hl
          exact lt_of_le_of_lt hle (Hppc ⟨ansTr.master, curSub⟩ outs1 tr2 htr2)
        refine ⟨(⟨ansTr.master, curSub⟩, (ppc ⟨ansTr.master, curSub⟩ outs1).2)
            :: tail, ?_, ?_, ?_, ?_⟩
        · rw [htail]
          simp
        · rw [show todoLevels ((⟨ansTr.master, curSub⟩,
              (ppc ⟨ansTr.master, curSub⟩ outs1).2) :: tail)
              = ansTr.master.level :: todoLevels tail from rfl]
          rw [List.chain'_cons']
          refine ⟨?_, hchain⟩
          intro b hb
          exact hless b (List.mem_of_mem_head? hb)
        · intro l hl
          rcases List.mem_cons.mp hl with rfl | hl2
          · exact hanslevel
          · exact hgt l hl2
        · intro l hl
          rcases List.mem_cons.mp hl with rfl | hl2
          · exact ⟨ansTr, hansmem, le_refl _⟩
          · exact ⟨ansTr, hansmem, le_of_lt (hless l hl2)⟩

/-- C9 amended: call reconciliation ordering.  When the reconciliation
loop of process_env_traces returns, it has applied each extra
interpreter's post_process_call in decreasing level order (innermost,
i.e. highest level, first), collecting one todo per reconciled
interpreter in that order, every reconciled level lying strictly above
the call's level (hypothesis Hppc is each rule's contract of returning
outputs below its own level); and apply_todos pops the collected list
from its end, so the outermost interpreter's finalizer is applied first
and the innermost interpreter's finalizer last. -/
theorem process_env_todos_order (curSub : Nat) (ops : TraceOps)
    (ppc : TraceRef → List Value → List Value × (List Value → List Value))
    (level : Int) (fuel : Nat) (outs res : List Value) (todos : List Todo)
    (Hppc : ∀ T outs, ∀ tr2 ∈ tracer_traces (ppc T outs).1,
        tr2.master.level < T.master.level)
    (hrun : processEnvLoop curSub ops ppc level fuel outs []
        = Except.ok (res, todos)) :
    List.Chain' (fun a b => b < a) (todoLevels todos) ∧
    (∀ l ∈ todoLevels todos, level < l) ∧
    (∀ (tfl : Value → Value) (ts : List Todo) (td : Todo) (o : List Value),
        apply_todos tfl (ts ++ [td]) o
          = apply_todos tfl ts ((td.2 o).map (full_lower tfl))) := by
  obtain ⟨tail, htail, hchain, hgt, -⟩ :=
    processEnvLoop_levels_aux curSub ops ppc level Hppc fuel outs [] res
      todos hrun
  rw [List.nil_append] at htail
  subst htail
  refine ⟨hchain, hgt, ?_⟩
  intro tfl ts td o
  simp [apply_todos, apply_todos_rev, List.reverse_append]

/-- C9 amended witness: two leaked tracers at levels 2 and 1 above a
level-0 call, with post_process_call rules that absorb them, yield a
single reconciliation at level 2 (the maximum first), whose recorded
levels are strictly decreasing and above the call level. -/
theorem process_env_todos_order_witness :
    List.Chain' (fun a b : Int => b < a)
        (todoLevels [(⟨⟨5, 2, 0⟩, 0⟩, fun o => o)]) ∧
    (∀ l ∈ todoLevels [(⟨⟨5, 2, 0⟩, 0⟩, fun o => o)], (0 : Int) < l) :=
  have h := process_env_todos_order 0
    ⟨fun _ v => v, fun _ v => v, fun _ v => v⟩
    (fun _ _ => ([], fun o => o)) 0 3
    [Value.tracer ⟨⟨5, 2, 0⟩, 0⟩ 0, Value.tracer ⟨⟨6, 1, 0⟩, 0⟩ 0] []
    [(⟨⟨5, 2, 0⟩, 0⟩, fun o => o)]
    (by intro T outs tr2 h2; simp [tracer_traces] at h2) rfl
  ⟨h.1, h.2.1⟩

end JaxCore
